import Mathlib

/-!
Shallow embedding of the per-packet transformation pipeline of `editcap.c`
(packet selection / chopping / deduplication / timestamp adjustment / error
injection).  C `int` values are modelled as mathematical `Int` (signed
overflow is undefined behaviour in the source and the theorems carry range
hypotheses keeping every intermediate inside the machine range); `guint32`
arithmetic and casts are modelled explicitly with `u32` (reduction modulo
2^32).  Byte buffers are modelled as `List Nat`, where the packet content is
the first `caplen` bytes counted from the current buffer pointer.
-/

namespace Editcap

/-- Reduction of an integer into the `guint32` value range, modelling C
unsigned 32-bit conversion and arithmetic. -/
def u32 (x : Int) : Int := x % 4294967296

/-- Timestamp with seconds and nanoseconds fields (`nstime_t`); `secs` is a
signed `time_t` and `nsecs` an `int`. -/
structure nstime where
  secs : Int
  nsecs : Int
deriving DecidableEq

/-- Value of the `ONE_BILLION` macro of editcap.c. -/
def ONE_BILLION : Int := 1000000000

/-- Total value of a timestamp in nanoseconds. -/
def nstime.toNs (t : nstime) : Int := t.secs * ONE_BILLION + t.nsecs

/-- Modelled from the spec: `nstime_delta` of the external time library
(wsutil, not under src/) computes the exact signed difference `b - a` of two
timestamps, normalised so that the seconds and nanoseconds parts share one
sign.  We represent the difference by its total value in nanoseconds, so the
source's test "delta.secs < 0 || delta.nsecs < 0" becomes negativity of this
value and `nstime_cmp` on normalised times becomes integer comparison. -/
def nstime_delta_ns (b a : nstime) : Int := b.toNs - a.toNs

/-- Modelled from the spec: the "unset timestamp" sentinel of the external
time library (wsutil, not under src/): the reserved pair (0 s, G_MAXINT ns),
distinct from every valid timestamp whose nanoseconds lie in [0, 1e9). -/
def nstime_is_unset (t : nstime) : Bool := t.secs == 0 && t.nsecs == 2147483647

/-- The `chop_t` accumulator of editcap.c: front/back chop lengths plus
positive/negative offsets, accumulated from repeated -C options. -/
structure chop_t where
  len_begin : Int
  off_begin_pos : Int
  off_begin_neg : Int
  len_end : Int
  off_end_pos : Int
  off_end_neg : Int
deriving DecidableEq

/-- Captured and reported lengths of a packet header (`wtap_packet_header`
fields used by `handle_chopping`). -/
structure packet_header where
  caplen : Int
  len : Int
deriving DecidableEq

/-- Normalisation part of `handle_chopping` (editcap.c lines 1998-2028):
zero meaningless offsets, convert negative front / positive back offsets to
the opposite representation, and swap crossed chop regions. -/
def chop_sanitize (caplen : Int) (ch : chop_t) : chop_t :=
  let c1 := if ch.len_begin = 0 then { ch with off_begin_pos := 0, off_begin_neg := 0 } else ch
  let c2 := if c1.len_end = 0 then { c1 with off_end_pos := 0, off_end_neg := 0 } else c1
  let c3 := if c2.off_begin_neg < 0 then
      { c2 with off_begin_pos := c2.off_begin_pos + caplen + c2.off_begin_neg,
                off_begin_neg := 0 }
    else c2
  let c4 := if c3.off_end_pos > 0 then
      { c3 with off_end_neg := c3.off_end_neg + c3.off_end_pos - caplen,
                off_end_pos := 0 }
    else c3
  if c4.len_begin ≠ 0 ∧ c4.len_end ≠ 0 ∧ c4.off_begin_pos > caplen + c4.off_end_neg then
    { len_begin := -c4.len_end,
      off_begin_pos := caplen + c4.off_end_neg + c4.len_end,
      off_begin_neg := c4.off_begin_neg,
      len_end := -c4.len_begin,
      off_end_pos := c4.off_end_pos,
      off_end_neg := c4.len_begin + c4.off_begin_pos - caplen }
  else c4

/-- Clamping part of `handle_chopping` (editcap.c lines 2030-2039): both
regions are zeroed when the packet is shorter than the combined preserved
offsets, and the removal lengths are clamped to the bytes remaining past
those offsets (the comparisons are `guint32` comparisons in the source). -/
def chop_clamp (caplen : Int) (ch : chop_t) : chop_t :=
  let c1 := if u32 caplen < u32 (ch.off_begin_pos - ch.off_end_neg) then
      { ch with len_begin := 0, len_end := 0 }
    else ch
  if u32 (c1.len_begin - c1.len_end) >
      u32 (u32 caplen - u32 (c1.off_begin_pos - c1.off_end_neg)) then
    { c1 with len_begin := caplen - (c1.off_begin_pos - c1.off_end_neg), len_end := 0 }
  else c1

/-- Application part of `handle_chopping` (editcap.c lines 2041-2083):
excise the front region (by memmove when a front offset is kept, otherwise
by advancing the buffer pointer), then the back region, updating captured
and, when `adjlen` is set, reported lengths.  The buffer list models the
storage from the current pointer on; the packet content is its first
`caplen` bytes. -/
def chop_apply (ch : chop_t) (in_phdr : packet_header) (buf : List Nat)
    (adjlen : Bool) : packet_header × List Nat :=
  let st1 :=
    if ch.len_begin > 0 then
      let hdr : packet_header :=
        { caplen := u32 (in_phdr.caplen - ch.len_begin),
          len := if adjlen then
              (if u32 in_phdr.len > u32 ch.len_begin then u32 (in_phdr.len - ch.len_begin) else 0)
            else in_phdr.len }
      let buf1 :=
        if ch.off_begin_pos > 0 then
          buf.take ch.off_begin_pos.toNat ++ buf.drop (ch.off_begin_pos + ch.len_begin).toNat
        else
          buf.drop ch.len_begin.toNat
      (hdr, buf1)
    else (in_phdr, buf)
  if ch.len_end < 0 then
    let hdr2 : packet_header :=
      { caplen := u32 (st1.1.caplen + ch.len_end),
        len := if adjlen then
            (if st1.1.len + ch.len_end > 0 then u32 (st1.1.len + ch.len_end) else 0)
          else st1.1.len }
    let buf2 :=
      if ch.off_end_neg < 0 then
        st1.2.take (st1.1.caplen + ch.len_end + ch.off_end_neg).toNat ++
          st1.2.drop (st1.1.caplen + ch.off_end_neg).toNat
      else st1.2
    (hdr2, buf2)
  else st1

/-- Whole `handle_chopping` of editcap.c: sanitize, clamp, then apply. -/
def handle_chopping (ch : chop_t) (in_phdr : packet_header) (buf : List Nat)
    (adjlen : Bool) : packet_header × List Nat :=
  chop_apply (chop_clamp in_phdr.caplen (chop_sanitize in_phdr.caplen ch)) in_phdr buf adjlen

theorem chop_sanitize_spec (caplen : Int) (ch : chop_t)
    (hlb : 0 ≤ ch.len_begin) (hle : ch.len_end ≤ 0)
    (hobp : 0 ≤ ch.off_begin_pos) (hobn : ch.off_begin_neg ≤ 0)
    (hoep : 0 ≤ ch.off_end_pos) (hoen : ch.off_end_neg ≤ 0)
    (hblb : ch.len_begin ≤ 268435456) (hble : -268435456 ≤ ch.len_end)
    (hbobp : ch.off_begin_pos ≤ 268435456) (hbobn : -268435456 ≤ ch.off_begin_neg)
    (hboep : ch.off_end_pos ≤ 268435456) (hboen : -268435456 ≤ ch.off_end_neg)
    (hc : 0 ≤ caplen) (hc2 : caplen ≤ 268435456) :
    0 ≤ (chop_sanitize caplen ch).len_begin ∧ (chop_sanitize caplen ch).len_end ≤ 0 ∧
    (chop_sanitize caplen ch).len_begin ≤ 1073741824 ∧
    -1073741824 ≤ (chop_sanitize caplen ch).len_end ∧
    -1073741824 ≤ (chop_sanitize caplen ch).off_begin_pos ∧
    (chop_sanitize caplen ch).off_begin_pos ≤ 1073741824 ∧
    -1073741824 ≤ (chop_sanitize caplen ch).off_end_neg ∧
    (chop_sanitize caplen ch).off_end_neg ≤ 1073741824 := by
  simp only [chop_sanitize]
  split_ifs <;> simp_all <;> omega

theorem chop_clamp_spec (caplen : Int) (ch : chop_t)
    (hlb : 0 ≤ ch.len_begin) (hle : ch.len_end ≤ 0)
    (hblb : ch.len_begin ≤ 1073741824) (hble : -1073741824 ≤ ch.len_end)
    (hbobp : -1073741824 ≤ ch.off_begin_pos) (hbobp2 : ch.off_begin_pos ≤ 1073741824)
    (hboen : -1073741824 ≤ ch.off_end_neg) (hboen2 : ch.off_end_neg ≤ 1073741824)
    (hc : 0 ≤ caplen) (hc2 : caplen ≤ 268435456) :
    0 ≤ (chop_clamp caplen ch).len_begin ∧ (chop_clamp caplen ch).len_end ≤ 0 ∧
    (chop_clamp caplen ch).len_begin - (chop_clamp caplen ch).len_end ≤ caplen := by
  simp only [chop_clamp, u32]
  split_ifs <;> simp_all <;> omega

theorem chop_apply_caplen (ch : chop_t) (in_phdr : packet_header) (buf : List Nat)
    (adjlen : Bool)
    (hlb : 0 ≤ ch.len_begin) (hle : ch.len_end ≤ 0)
    (hsum : ch.len_begin - ch.len_end ≤ in_phdr.caplen)
    (hc : 0 ≤ in_phdr.caplen) (hc2 : in_phdr.caplen ≤ 268435456) :
    0 ≤ (chop_apply ch in_phdr buf adjlen).1.caplen ∧
    (chop_apply ch in_phdr buf adjlen).1.caplen ≤ in_phdr.caplen := by
  simp only [chop_apply, u32]
  split_ifs <;> simp_all <;> omega

/-- C1: for every packet and every chop configuration respecting the sign
discipline of the -C option accumulator (front length and positive offsets
non-negative, back length and negative offsets non-positive) and the machine
integer range, the captured length produced by `handle_chopping` lies
between 0 and the original captured length: chopping never removes more
bytes than the packet's captured length. -/
theorem chop_caplen_within_bounds (ch : chop_t) (ph : packet_header) (buf : List Nat)
    (adjlen : Bool)
    (hlb : 0 ≤ ch.len_begin) (hle : ch.len_end ≤ 0)
    (hobp : 0 ≤ ch.off_begin_pos) (hobn : ch.off_begin_neg ≤ 0)
    (hoep : 0 ≤ ch.off_end_pos) (hoen : ch.off_end_neg ≤ 0)
    (hblb : ch.len_begin ≤ 268435456) (hble : -268435456 ≤ ch.len_end)
    (hbobp : ch.off_begin_pos ≤ 268435456) (hbobn : -268435456 ≤ ch.off_begin_neg)
    (hboep : ch.off_end_pos ≤ 268435456) (hboen : -268435456 ≤ ch.off_end_neg)
    (hc : 0 ≤ ph.caplen) (hc2 : ph.caplen ≤ 268435456) :
    0 ≤ (handle_chopping ch ph buf adjlen).1.caplen ∧
    (handle_chopping ch ph buf adjlen).1.caplen ≤ ph.caplen := by
  have h1 := chop_sanitize_spec ph.caplen ch hlb hle hobp hobn hoep hoen
    hblb hble hbobp hbobn hboep hboen hc hc2
  have h2 := chop_clamp_spec ph.caplen (chop_sanitize ph.caplen ch)
    h1.1 h1.2.1 h1.2.2.1 h1.2.2.2.1 h1.2.2.2.2.1 h1.2.2.2.2.2.1
    h1.2.2.2.2.2.2.1 h1.2.2.2.2.2.2.2 hc hc2
  exact chop_apply_caplen _ ph buf adjlen h2.1 h2.2.1 h2.2.2 hc hc2

/-- Witness for C1 at a concrete crossed chop configuration. -/
theorem chop_caplen_within_bounds_witness :
    0 ≤ (handle_chopping ⟨4, 2, 0, -3, 0, -1⟩ ⟨20, 25⟩ (List.range 20) true).1.caplen ∧
    (handle_chopping ⟨4, 2, 0, -3, 0, -1⟩ ⟨20, 25⟩ (List.range 20) true).1.caplen ≤ 20 := by
  exact chop_caplen_within_bounds ⟨4, 2, 0, -3, 0, -1⟩ ⟨20, 25⟩ (List.range 20) true
    (by decide) (by decide) (by decide) (by decide) (by decide) (by decide)
    (by decide) (by decide) (by decide) (by decide) (by decide) (by decide)
    (by decide) (by decide)

theorem chop_clamp_zero (caplen : Int) (ch : chop_t)
    (h : u32 caplen < u32 (ch.off_begin_pos - ch.off_end_neg)) :
    (chop_clamp caplen ch).len_begin = 0 ∧ (chop_clamp caplen ch).len_end = 0 := by
  simp only [chop_clamp, u32] at *
  split_ifs <;> simp_all <;> omega

theorem chop_apply_noop (ch : chop_t) (ph : packet_header) (buf : List Nat)
    (adjlen : Bool) (hlb : ch.len_begin ≤ 0) (hle : 0 ≤ ch.len_end) :
    chop_apply ch ph buf adjlen = (ph, buf) := by
  simp only [chop_apply]
  split_ifs <;> first | rfl | (exfalso; omega)

/-- Counterexample to C2 as stated: a front chop length (10) that alone
consumes more than the captured length (5) does not zero both regions and
leave the packet unchanged; the front removal is clamped and the packet is
truncated to captured length 0. -/
theorem chop_front_overrun_truncates_cex :
    (handle_chopping ⟨10, 0, 0, 0, 0, 0⟩ ⟨5, 5⟩ [0, 1, 2, 3, 4] false).1.caplen = 0 ∧
    handle_chopping ⟨10, 0, 0, 0, 0, 0⟩ ⟨5, 5⟩ [0, 1, 2, 3, 4] false ≠
      (⟨5, 5⟩, [0, 1, 2, 3, 4]) := by
  decide

/-- C2 amended: the lenient zero-both-regions fallback is triggered by the
preserved offsets, not by the removal lengths: whenever the packet's
captured length is smaller (as `guint32`) than the normalized front offset
minus the normalized back offset, both chop regions are zeroed and the
packet is left completely unchanged.  An oversized removal length is instead
clamped to the available bytes. -/
theorem chop_offset_overrun_noop (ch : chop_t) (ph : packet_header) (buf : List Nat)
    (adjlen : Bool)
    (h : u32 ph.caplen < u32 ((chop_sanitize ph.caplen ch).off_begin_pos -
          (chop_sanitize ph.caplen ch).off_end_neg)) :
    handle_chopping ch ph buf adjlen = (ph, buf) := by
  have hz := chop_clamp_zero ph.caplen (chop_sanitize ph.caplen ch) h
  unfold handle_chopping
  exact chop_apply_noop _ ph buf adjlen (le_of_eq hz.1) (ge_of_eq hz.2)

/-- Witness for the amended C2 at a concrete oversized-offset request. -/
theorem chop_offset_overrun_noop_witness :
    handle_chopping ⟨3, 10, 0, 0, 0, 0⟩ ⟨5, 5⟩ [9, 8, 7, 6, 5] true =
      (⟨5, 5⟩, [9, 8, 7, 6, 5]) :=
  chop_offset_overrun_noop ⟨3, 10, 0, 0, 0, 0⟩ ⟨5, 5⟩ [9, 8, 7, 6, 5] true (by decide)

/-- The `struct time_adjustment` of editcap.c: a non-negative (secs, nsecs)
magnitude plus a negative flag. -/
structure time_adjustment where
  tv : nstime
  is_negative : Bool
deriving DecidableEq

/-- Shared rewrite of the strict time adjustment (editcap.c lines 1596-1605
and 1616-1625): set the timestamp to the previous output timestamp plus the
strict delta, carrying nanoseconds into seconds on overflow. -/
def strict_rewrite (adj : time_adjustment) (prev : nstime) : nstime :=
  let s := prev.secs + adj.tv.secs
  let n := prev.nsecs
  if n + adj.tv.nsecs ≥ ONE_BILLION then
    ⟨s + 1, n + adj.tv.nsecs - ONE_BILLION⟩
  else
    ⟨s, n + adj.tv.nsecs⟩

/-- One step of the strict time adjustment state machine (editcap.c lines
1575-1630): when the recorded previous time is not the all-zero sentinel,
non-negative mode rewrites only out-of-order packets while negative mode
rewrites unconditionally; the sentinel case passes the timestamp through. -/
def strict_adjust_step (adj : time_adjustment) (prev ts : nstime) : nstime :=
  if prev.secs ≠ 0 ∨ prev.nsecs ≠ 0 then
    if adj.is_negative = false then
      if nstime_delta_ns ts prev < 0 then strict_rewrite adj prev else ts
    else strict_rewrite adj prev
  else ts

/-- Strict adjustment over a run of timestamped packets: each packet's
(possibly rewritten) timestamp becomes the previous time for the next
packet; editcap.c initialises `previous_time` to the all-zero value. -/
def strict_run (adj : time_adjustment) (prev : nstime) : List nstime → List nstime
  | [] => []
  | ts :: rest =>
    let out := strict_adjust_step adj prev ts
    out :: strict_run adj out rest

/-- Fixed time shift of editcap.c lines 1632-1661: the seconds part is
added or subtracted when non-zero, then the nanoseconds part with explicit
borrow/carry across the one-billion boundary. -/
def time_shift (adj : time_adjustment) (ts : nstime) : nstime :=
  let t1 :=
    if adj.tv.secs ≠ 0 then
      if adj.is_negative then ⟨ts.secs - adj.tv.secs, ts.nsecs⟩
      else ⟨ts.secs + adj.tv.secs, ts.nsecs⟩
    else ts
  if adj.tv.nsecs ≠ 0 then
    if adj.is_negative then
      if t1.nsecs < adj.tv.nsecs then
        ⟨t1.secs - 1, t1.nsecs + ONE_BILLION - adj.tv.nsecs⟩
      else
        ⟨t1.secs, t1.nsecs - adj.tv.nsecs⟩
    else
      if t1.nsecs + adj.tv.nsecs ≥ ONE_BILLION then
        ⟨t1.secs + 1, t1.nsecs + adj.tv.nsecs - ONE_BILLION⟩
      else
        ⟨t1.secs, t1.nsecs + adj.tv.nsecs⟩
  else t1

theorem strict_step_zero (adj : time_adjustment) (ts : nstime) :
    strict_adjust_step adj ⟨0, 0⟩ ts = ts := by
  simp [strict_adjust_step]

theorem strict_step_neg (adj : time_adjustment) (prev ts : nstime)
    (h : prev.secs ≠ 0 ∨ prev.nsecs ≠ 0) (hm : adj.is_negative = true) :
    strict_adjust_step adj prev ts = strict_rewrite adj prev := by
  simp [strict_adjust_step, h, hm]

theorem strict_rewrite_toNs (adj : time_adjustment) (prev : nstime)
    (hp : 0 ≤ prev.nsecs) (hp2 : prev.nsecs < ONE_BILLION)
    (ha : 0 ≤ adj.tv.nsecs) (ha2 : adj.tv.nsecs < ONE_BILLION) :
    (strict_rewrite adj prev).toNs = prev.toNs + adj.tv.toNs ∧
    0 ≤ (strict_rewrite adj prev).nsecs ∧ (strict_rewrite adj prev).nsecs < ONE_BILLION := by
  simp only [strict_rewrite, nstime.toNs, ONE_BILLION] at *
  split_ifs <;> simp_all <;> omega

/-- Counterexample to C5 as stated: in non-negative strict mode with zero
strict delta, a run whose first packet carries the all-zero timestamp leaves
the second packet (timestamp -1 s) unadjusted, so the second output
timestamp is earlier than the first output timestamp. -/
theorem strict_adjust_monotone_cex :
    strict_run ⟨⟨0, 0⟩, false⟩ ⟨0, 0⟩ [⟨0, 0⟩, ⟨-1, 0⟩] = [⟨0, 0⟩, ⟨-1, 0⟩] ∧
    nstime.toNs ⟨-1, 0⟩ < nstime.toNs ⟨0, 0⟩ := by
  decide

/-- C5 amended: in strict non-negative mode, for every packet after the
first whose predecessor's post-strict-adjustment timestamp is not the
all-zero sentinel, the post-strict-adjustment timestamp is never earlier
than that predecessor's output timestamp. -/
theorem strict_adjust_monotone_of_prev_nonzero (adj : time_adjustment) (prev ts : nstime)
    (hmode : adj.is_negative = false)
    (hs : 0 ≤ adj.tv.secs) (hn : 0 ≤ adj.tv.nsecs)
    (hprev : prev.secs ≠ 0 ∨ prev.nsecs ≠ 0) :
    prev.toNs ≤ (strict_adjust_step adj prev ts).toNs := by
  simp only [strict_adjust_step, strict_rewrite, nstime_delta_ns, nstime.toNs,
    ONE_BILLION] at *
  split_ifs <;> simp_all <;> omega

/-- Witness for the amended C5 at a concrete out-of-order packet. -/
theorem strict_adjust_monotone_witness :
    nstime.toNs ⟨10, 5⟩ ≤ (strict_adjust_step ⟨⟨1, 500⟩, false⟩ ⟨10, 5⟩ ⟨3, 0⟩).toNs :=
  strict_adjust_monotone_of_prev_nonzero ⟨⟨1, 500⟩, false⟩ ⟨10, 5⟩ ⟨3, 0⟩
    (by decide) (by decide) (by decide) (by decide)

/-- Counterexample to C6 as stated: in negative strict mode with delta
0.000001 s, three packets whose first timestamp t0 is the all-zero sentinel
are not rewritten to t0, t0+1000 ns, t0+2000 ns; the second packet is passed
through unchanged. -/
theorem strict_neg_mode_cex :
    strict_run ⟨⟨0, 1000⟩, true⟩ ⟨0, 0⟩ [⟨0, 0⟩, ⟨5, 0⟩, ⟨7, 0⟩] =
      [⟨0, 0⟩, ⟨5, 0⟩, ⟨5, 1000⟩] ∧
    strict_run ⟨⟨0, 1000⟩, true⟩ ⟨0, 0⟩ [⟨0, 0⟩, ⟨5, 0⟩, ⟨7, 0⟩] ≠
      [⟨0, 0⟩, ⟨0, 1000⟩, ⟨0, 2000⟩] := by
  decide

/-- C6 amended: in negative strict mode with delta 0.000001 s, for three
timestamped packets whose later timestamps are arbitrary and whose first
timestamp t0 is a normalised timestamp that is neither the all-zero sentinel
nor the value -0.000001 s (so that no intermediate output hits the
sentinel), the post-strict-adjustment timestamps are exactly t0,
t0 + 0.000001 s and t0 + 0.000002 s. -/
theorem strict_neg_mode_outputs (t0 t1 t2 : nstime)
    (h0 : t0.secs ≠ 0 ∨ t0.nsecs ≠ 0)
    (hn : 0 ≤ t0.nsecs) (hn2 : t0.nsecs < ONE_BILLION)
    (h1 : ¬ (t0.secs = -1 ∧ t0.nsecs = 999999000)) :
    (strict_run ⟨⟨0, 1000⟩, true⟩ ⟨0, 0⟩ [t0, t1, t2]).getD 0 ⟨0, 0⟩ = t0 ∧
    ((strict_run ⟨⟨0, 1000⟩, true⟩ ⟨0, 0⟩ [t0, t1, t2]).getD 1 ⟨0, 0⟩).toNs =
      t0.toNs + 1000 ∧
    ((strict_run ⟨⟨0, 1000⟩, true⟩ ⟨0, 0⟩ [t0, t1, t2]).getD 2 ⟨0, 0⟩).toNs =
      t0.toNs + 2000 := by
  have hr1 := strict_rewrite_toNs ⟨⟨0, 1000⟩, true⟩ t0 hn hn2 (by decide) (by decide)
  have hr1nz : (strict_rewrite ⟨⟨0, 1000⟩, true⟩ t0).secs ≠ 0 ∨
      (strict_rewrite ⟨⟨0, 1000⟩, true⟩ t0).nsecs ≠ 0 := by
    by_contra hcon
    push_neg at hcon
    have hz : (strict_rewrite ⟨⟨0, 1000⟩, true⟩ t0).toNs = 0 := by
      simp [nstime.toNs, hcon.1, hcon.2]
    rw [hr1.1] at hz
    simp only [nstime.toNs, ONE_BILLION] at hz hn hn2
    omega
  have hr2 := strict_rewrite_toNs ⟨⟨0, 1000⟩, true⟩ (strict_rewrite ⟨⟨0, 1000⟩, true⟩ t0)
    hr1.2.1 hr1.2.2 (by decide) (by decide)
  have e1 : strict_adjust_step ⟨⟨0, 1000⟩, true⟩ ⟨0, 0⟩ t0 = t0 := strict_step_zero _ _
  have e2 : strict_adjust_step ⟨⟨0, 1000⟩, true⟩ t0 t1 =
      strict_rewrite ⟨⟨0, 1000⟩, true⟩ t0 :=
    strict_step_neg ⟨⟨0, 1000⟩, true⟩ t0 t1 h0 rfl
  have e3 : strict_adjust_step ⟨⟨0, 1000⟩, true⟩ (strict_rewrite ⟨⟨0, 1000⟩, true⟩ t0) t2 =
      strict_rewrite ⟨⟨0, 1000⟩, true⟩ (strict_rewrite ⟨⟨0, 1000⟩, true⟩ t0) :=
    strict_step_neg ⟨⟨0, 1000⟩, true⟩ _ t2 hr1nz rfl
  simp only [strict_run, e1, e2, e3, List.getD, List.get?, Option.getD]
  refine ⟨trivial, ?_, ?_⟩
  · rw [hr1.1]
    simp only [nstime.toNs, ONE_BILLION]
    omega
  · rw [hr2.1, hr1.1]
    simp only [nstime.toNs, ONE_BILLION]
    omega

/-- Witness for the amended C6 at a concrete first timestamp. -/
theorem strict_neg_mode_outputs_witness :
    (strict_run ⟨⟨0, 1000⟩, true⟩ ⟨0, 0⟩ [⟨100, 7⟩, ⟨3, 2⟩, ⟨99, 1⟩]).getD 0 ⟨0, 0⟩ =
      ⟨100, 7⟩ ∧
    ((strict_run ⟨⟨0, 1000⟩, true⟩ ⟨0, 0⟩ [⟨100, 7⟩, ⟨3, 2⟩, ⟨99, 1⟩]).getD 1 ⟨0, 0⟩).toNs =
      nstime.toNs ⟨100, 7⟩ + 1000 ∧
    ((strict_run ⟨⟨0, 1000⟩, true⟩ ⟨0, 0⟩ [⟨100, 7⟩, ⟨3, 2⟩, ⟨99, 1⟩]).getD 2 ⟨0, 0⟩).toNs =
      nstime.toNs ⟨100, 7⟩ + 2000 :=
  strict_neg_mode_outputs ⟨100, 7⟩ ⟨3, 2⟩ ⟨99, 1⟩ (by decide) (by decide) (by decide)
    (by decide)

/-- C7: the fixed time shift is exact fixed-point addition or subtraction
with carry/borrow across the one-billion-nanosecond boundary: for a
normalised timestamp and a shift whose nanoseconds lie in [0, 1e9), the
result's nanoseconds lie again in [0, 1e9) and its total value equals the
exact sum (positive shift) or difference (negative shift). -/
theorem time_shift_exact (adj : time_adjustment) (ts : nstime)
    (hts1 : 0 ≤ ts.nsecs) (hts2 : ts.nsecs < ONE_BILLION)
    (ha1 : 0 ≤ adj.tv.nsecs) (ha2 : adj.tv.nsecs < ONE_BILLION) :
    0 ≤ (time_shift adj ts).nsecs ∧ (time_shift adj ts).nsecs < ONE_BILLION ∧
    (time_shift adj ts).toNs =
      (if adj.is_negative then ts.toNs - adj.tv.toNs else ts.toNs + adj.tv.toNs) := by
  simp only [time_shift, nstime.toNs, ONE_BILLION] at *
  split_ifs <;> simp_all <;> omega

/-- Witness for C7 at the spec's example: (5 s, 9e8 ns) + (0 s, 2e8 ns)
carries into (6 s, 1e8 ns). -/
theorem time_shift_exact_witness :
    (0 ≤ (time_shift ⟨⟨0, 200000000⟩, false⟩ ⟨5, 900000000⟩).nsecs ∧
      (time_shift ⟨⟨0, 200000000⟩, false⟩ ⟨5, 900000000⟩).nsecs < ONE_BILLION ∧
      (time_shift ⟨⟨0, 200000000⟩, false⟩ ⟨5, 900000000⟩).toNs =
        (if (false : Bool) = true then
            nstime.toNs ⟨5, 900000000⟩ - nstime.toNs ⟨0, 200000000⟩
          else nstime.toNs ⟨5, 900000000⟩ + nstime.toNs ⟨0, 200000000⟩)) ∧
    time_shift ⟨⟨0, 200000000⟩, false⟩ ⟨5, 900000000⟩ = ⟨6, 100000000⟩ :=
  ⟨time_shift_exact ⟨⟨0, 200000000⟩, false⟩ ⟨5, 900000000⟩
      (by decide) (by decide) (by decide) (by decide),
    by decide⟩

/-- C10: the strict-adjustment state machine encodes "no previous timestamp
recorded" as the all-zero timestamp, so whenever a retained packet's
post-strict-adjustment output timestamp is exactly (0 s, 0 ns), the next
timestamped packet is passed through unchanged (treated as a first packet),
in both adjustment modes. -/
theorem strict_sentinel_passthrough (adj : time_adjustment) (prev : nstime)
    (l : List nstime) (k : Nat) (ts : nstime)
    (h0 : (strict_run adj prev l).get? k = some ⟨0, 0⟩)
    (h1 : l.get? (k + 1) = some ts) :
    (strict_run adj prev l).get? (k + 1) = some ts := by
  induction l generalizing prev k with
  | nil => simp [strict_run] at h0
  | cons a rest ih =>
    cases k with
    | zero =>
      cases rest with
      | nil => simp at h1
      | cons b rest2 =>
        simp only [strict_run, List.get?] at h0 h1 ⊢
        have hout : strict_adjust_step adj prev a = ⟨0, 0⟩ := Option.some.inj h0
        rw [hout, strict_step_zero]
        exact h1
    | succ k2 =>
      simp only [strict_run, List.get?] at h0 h1 ⊢
      exact ih (strict_adjust_step adj prev a) k2 h0 h1

/-- Witness for C10: a run whose first output is the all-zero timestamp
passes the second packet through unchanged. -/
theorem strict_sentinel_passthrough_witness :
    (strict_run ⟨⟨0, 1000⟩, true⟩ ⟨0, 0⟩ [⟨0, 0⟩, ⟨5, 5⟩]).get? 1 = some ⟨5, 5⟩ :=
  strict_sentinel_passthrough ⟨⟨0, 1000⟩, true⟩ ⟨0, 0⟩ [⟨0, 0⟩, ⟨5, 5⟩] 0 ⟨5, 5⟩
    (by decide) (by decide)

/-- Configuration shared by the two deduplicators: the -I ignore-byte
count, the -p radiotap-skip flag and the ring window size. -/
structure dedup_cfg where
  ignored_bytes : Nat
  skip_radiotap : Bool
  dup_window : Nat
deriving DecidableEq

/-- Modelled from the spec: the radiotap header is a self-describing
sub-header whose size is read from the first bytes of the packet; its
`it_len` field is a little-endian 16-bit quantity at byte offset 2 of the
external `ieee80211_radiotap_header` layout (not under src/), read by
`pletoh16`. -/
def radiotap_it_len (fd : List Nat) : Nat := fd.getD 2 0 + 256 * fd.getD 3 0

/-- Digest offset chosen by `is_duplicate` (editcap.c lines 583-598): the
ignore-byte count, zeroed when it covers the whole packet, overridden in
radiotap mode by the self-describing header size with fallback to 0 when
that size would reach past the packet. -/
def dedup_offset (cfg : dedup_cfg) (fd : List Nat) (len : Nat) : Nat :=
  let offset := if len ≤ cfg.ignored_bytes then 0 else cfg.ignored_bytes
  if cfg.skip_radiotap then
    let rt := radiotap_it_len fd
    if rt ≥ len then 0 else rt
  else offset

/-- Byte range digested by `is_duplicate`: from the chosen offset up to the
captured length. -/
def dedup_digest_input (cfg : dedup_cfg) (fd : List Nat) (len : Nat) : List Nat :=
  (fd.take len).drop (dedup_offset cfg fd len)

/-- Digest offset chosen by `is_duplicate_rel_time` (editcap.c lines
630-637): only the ignore-byte logic; this function has no radiotap
branch. -/
def rel_dedup_offset (cfg : dedup_cfg) (fd : List Nat) (len : Nat) : Nat :=
  if len ≤ cfg.ignored_bytes then 0 else cfg.ignored_bytes

/-- Byte range digested by `is_duplicate_rel_time`. -/
def rel_dedup_digest_input (cfg : dedup_cfg) (fd : List Nat) (len : Nat) : List Nat :=
  (fd.take len).drop (rel_dedup_offset cfg fd len)

/-- Ring entry of the content-window deduplicator: captured length plus
digest (the digest function is kept abstract, the cryptographic hash being
an external black box). -/
structure fd_entry where
  len : Nat
  digest : List Nat
deriving DecidableEq

/-- State of the content-window deduplicator: the `fd_hash` ring (as a
total map from slot index to entry, zero-filled at start) and the cursor
`cur_dup_entry`. -/
structure dd_state where
  hash : Nat → fd_entry
  cur : Nat

/-- Cursor advance of both deduplicators: increment and wrap at the window
size. -/
def advance (w c : Nat) : Nat := if c + 1 ≥ w then 0 else c + 1

/-- Entry stored for a packet: its captured length and the digest of its
post-offset bytes. -/
def mkEntry (cfg : dedup_cfg) (dg : List Nat → List Nat) (fd : List Nat) (len : Nat) :
    fd_entry :=
  ⟨len, dg (dedup_digest_input cfg fd len)⟩

/-- Storage part of `is_duplicate`: advance the cursor and overwrite the
slot with the new packet's entry. -/
def dd_insert (cfg : dedup_cfg) (dg : List Nat → List Nat) (st : dd_state)
    (fd : List Nat) (len : Nat) : dd_state :=
  let cur := advance cfg.dup_window st.cur
  ⟨fun i => if i = cur then mkEntry cfg dg fd len else st.hash i, cur⟩

/-- The content-window `is_duplicate` of editcap.c (lines 578-624): store
the new entry at the advanced cursor, then scan every other slot of the
ring for an entry with identical captured length and identical digest. -/
def is_duplicate (cfg : dedup_cfg) (dg : List Nat → List Nat) (st : dd_state)
    (fd : List Nat) (len : Nat) : Bool × dd_state :=
  let st1 := dd_insert cfg dg st fd len
  ((List.range cfg.dup_window).any fun i =>
      decide (i ≠ st1.cur) && ((st1.hash i).len == (st1.hash st1.cur).len) &&
        ((st1.hash i).digest == (st1.hash st1.cur).digest),
    st1)

/-- Zero-initialised deduplicator state: the static `fd_hash` array is
zero-filled and `cur_dup_entry` starts at 0. -/
def dd_init : dd_state := ⟨fun _ => ⟨0, List.replicate 16 0⟩, 0⟩

/-- Insertion of a sequence of packets (buffer, captured length) into the
content-window deduplicator, keeping only the state. -/
def dedup_run (cfg : dedup_cfg) (dg : List Nat → List Nat) (st : dd_state)
    (pkts : List (List Nat × Nat)) : dd_state :=
  pkts.foldl (fun s p => (is_duplicate cfg dg s p.1 p.2).2) st

/-- Counterexample to C8 as stated: with radiotap mode on (and the
mutually-exclusive ignore-byte count 0), `is_duplicate` digests from the
self-described header size while `is_duplicate_rel_time` digests from
offset 0, so the digest offsets differ. -/
theorem fingerprint_offset_cex :
    dedup_offset ⟨0, true, 5⟩ [0, 0, 4, 0, 9, 9, 9, 9, 9, 9] 10 = 4 ∧
    rel_dedup_offset ⟨0, true, 5⟩ [0, 0, 4, 0, 9, 9, 9, 9, 9, 9] 10 = 0 ∧
    dedup_digest_input ⟨0, true, 5⟩ [0, 0, 4, 0, 9, 9, 9, 9, 9, 9] 10 ≠
      rel_dedup_digest_input ⟨0, true, 5⟩ [0, 0, 4, 0, 9, 9, 9, 9, 9, 9] 10 := by
  decide

/-- C8 amended: the time-window deduplicator computes its fingerprint
exactly like the content-window deduplicator whenever the radiotap skip
mode is disabled: for every buffer, captured length and ignore-byte count,
the digest offsets and the digested byte ranges coincide; in radiotap mode
only `is_duplicate` honours the self-describing sub-header. -/
theorem fingerprint_offset_agree_no_radiotap (cfg : dedup_cfg) (fd : List Nat)
    (len : Nat) (h : cfg.skip_radiotap = false) :
    dedup_offset cfg fd len = rel_dedup_offset cfg fd len ∧
    dedup_digest_input cfg fd len = rel_dedup_digest_input cfg fd len := by
  constructor
  · simp [dedup_offset, rel_dedup_offset, h]
  · simp [dedup_digest_input, rel_dedup_digest_input, dedup_offset, rel_dedup_offset, h]

/-- Witness for the amended C8 at a concrete ignore-byte configuration. -/
theorem fingerprint_offset_agree_witness :
    dedup_offset ⟨3, false, 5⟩ [1, 2, 3, 4, 5] 5 = rel_dedup_offset ⟨3, false, 5⟩ [1, 2, 3, 4, 5] 5 ∧
    dedup_digest_input ⟨3, false, 5⟩ [1, 2, 3, 4, 5] 5 =
      rel_dedup_digest_input ⟨3, false, 5⟩ [1, 2, 3, 4, 5] 5 :=
  fingerprint_offset_agree_no_radiotap ⟨3, false, 5⟩ [1, 2, 3, 4, 5] 5 (by decide)

/-- Write a run of bytes into a buffer starting at a given index. -/
def writeBytes : List Nat → Nat → List Nat → List Nat
  | buf, _, [] => buf
  | buf, i, b :: rest => writeBytes (buf.set i b) (i + 1) rest

/-- Modelled from the spec: `g_strlcpy` of the external GLib library
copies at most `size - 1` bytes of the source string into the destination
and always NUL-terminates the destination (BSD strlcpy contract). -/
def g_strlcpy_at (buf : List Nat) (i : Nat) (src : List Nat) (size : Nat) : List Nat :=
  if size = 0 then buf else writeBytes buf i (src.take (size - 1) ++ [0])

/-- Byte values of the two-character C literal used by the format error
outcome: the percent sign (0x25) and the letter s (0x73). -/
def fmt_str : List Nat := [37, 115]

/-- Format outcome of the error injector (editcap.c lines 1836-1839): when
position i is more than two bytes from the end of the captured region (an
unsigned comparison in the source), call `g_strlcpy` at position i with the
two-character literal and destination size 2. -/
def err_fmt_mutation (buf : List Nat) (caplen : Nat) (i : Nat) : List Nat :=
  if (i : Int) % 4294967296 < ((caplen : Int) - 2) % 4294967296 then
    g_strlcpy_at buf i fmt_str 2
  else buf

/-- C9 evaluated at a failing input: with captured length 6 and draw
position 1, the format outcome overwrites bytes 1 and 2 with the percent
sign (0x25) and a NUL (0x00) rather than with percent then the letter s
(0x73): `g_strlcpy` with destination size 2 truncates the literal, contrary
to the source's own comment announcing a two-character substitution. -/
theorem err_fmt_writes_percent_nul :
    err_fmt_mutation [1, 2, 3, 4, 5, 6] 6 1 = [1, 37, 0, 4, 5, 6] ∧
    (err_fmt_mutation [1, 2, 3, 4, 5, 6] 6 1).getD 2 0 ≠ 115 := by
  decide

theorem advance_lt (w c : Nat) (hw : 1 ≤ w) : advance w c < w := by
  unfold advance
  split_ifs <;> omega

theorem advance_mod (w c : Nat) (hc : c < w) : advance w c = (c + 1) % w := by
  unfold advance
  split_ifs with h
  · rw [show c + 1 = w by omega, Nat.mod_self]
  · exact (Nat.mod_eq_of_lt (by omega)).symm

theorem mod_shift_ne (s k w : Nat) (hk1 : 1 ≤ k) (hk2 : k < w) :
    (s + k) % w ≠ s % w := by
  intro h
  have hd : w ∣ s + k - s := (Nat.modEq_iff_dvd' (Nat.le_add_right s k)).mp h.symm
  rw [Nat.add_sub_cancel_left] at hd
  have := Nat.le_of_dvd (by omega) hd
  omega

theorem dedup_run_nil (cfg : dedup_cfg) (dg : List Nat → List Nat) (st : dd_state) :
    dedup_run cfg dg st [] = st := rfl

theorem dedup_run_cons (cfg : dedup_cfg) (dg : List Nat → List Nat) (st : dd_state)
    (p : List Nat × Nat) (l : List (List Nat × Nat)) :
    dedup_run cfg dg st (p :: l) = dedup_run cfg dg (dd_insert cfg dg st p.1 p.2) l := rfl

theorem dd_insert_cur (cfg : dedup_cfg) (dg : List Nat → List Nat) (st : dd_state)
    (fd : List Nat) (len : Nat) :
    (dd_insert cfg dg st fd len).cur = advance cfg.dup_window st.cur := rfl

theorem dd_insert_hash_self (cfg : dedup_cfg) (dg : List Nat → List Nat) (st : dd_state)
    (fd : List Nat) (len : Nat) :
    (dd_insert cfg dg st fd len).hash (advance cfg.dup_window st.cur) =
      mkEntry cfg dg fd len := by
  simp [dd_insert]

theorem dd_insert_hash_other (cfg : dedup_cfg) (dg : List Nat → List Nat) (st : dd_state)
    (fd : List Nat) (len : Nat) (s : Nat) (hne : s ≠ advance cfg.dup_window st.cur) :
    (dd_insert cfg dg st fd len).hash s = st.hash s := by
  simp [dd_insert, hne]

theorem is_duplicate_state (cfg : dedup_cfg) (dg : List Nat → List Nat) (st : dd_state)
    (fd : List Nat) (len : Nat) :
    (is_duplicate cfg dg st fd len).2 = dd_insert cfg dg st fd len := rfl

theorem dedup_run_cur (cfg : dedup_cfg) (dg : List Nat → List Nat)
    (l : List (List Nat × Nat)) (st : dd_state) (hc : st.cur < cfg.dup_window) :
    (dedup_run cfg dg st l).cur = (st.cur + l.length) % cfg.dup_window := by
  induction l generalizing st with
  | nil => rw [dedup_run_nil, List.length_nil, Nat.add_zero, Nat.mod_eq_of_lt hc]
  | cons p rest ih =>
    have hw : 1 ≤ cfg.dup_window := by omega
    have hins : (dd_insert cfg dg st p.1 p.2).cur = (st.cur + 1) % cfg.dup_window := by
      rw [dd_insert_cur]
      exact advance_mod _ _ hc
    rw [dedup_run_cons, ih _ (by rw [hins]; exact Nat.mod_lt _ (by omega)), hins,
      Nat.mod_add_mod]
    congr 1
    simp only [List.length_cons]
    omega

theorem dedup_run_hash_untouched (cfg : dedup_cfg) (dg : List Nat → List Nat)
    (l : List (List Nat × Nat)) (st : dd_state) (s : Nat)
    (hc : st.cur < cfg.dup_window)
    (h : ∀ m, 1 ≤ m → m ≤ l.length → (st.cur + m) % cfg.dup_window ≠ s) :
    (dedup_run cfg dg st l).hash s = st.hash s := by
  induction l generalizing st with
  | nil => rfl
  | cons p rest ih =>
    have hw : 1 ≤ cfg.dup_window := by omega
    have h1 := h 1 (le_refl 1) (by simp)
    have hins_cur : (dd_insert cfg dg st p.1 p.2).cur = (st.cur + 1) % cfg.dup_window := by
      rw [dd_insert_cur]
      exact advance_mod _ _ hc
    have hne : s ≠ advance cfg.dup_window st.cur := by
      rw [advance_mod _ _ hc]
      intro he
      exact h1 he.symm
    have hcond : ∀ m, 1 ≤ m → m ≤ rest.length →
        ((dd_insert cfg dg st p.1 p.2).cur + m) % cfg.dup_window ≠ s := by
      intro m hm1 hm2
      have h2 := h (m + 1) (by omega) (by simp only [List.length_cons]; omega)
      rw [hins_cur, Nat.mod_add_mod, show st.cur + 1 + m = st.cur + (m + 1) by omega]
      exact h2
    rw [dedup_run_cons, ih _ (by rw [hins_cur]; exact Nat.mod_lt _ (by omega)) hcond]
    exact dd_insert_hash_other cfg dg st p.1 p.2 s hne

theorem dedup_run_hash_covered (cfg : dedup_cfg) (dg : List Nat → List Nat)
    (l : List (List Nat × Nat)) (st : dd_state) (s : Nat)
    (hc : st.cur < cfg.dup_window)
    (hcov : ∃ m, 1 ≤ m ∧ m ≤ l.length ∧ (st.cur + m) % cfg.dup_window = s) :
    ∃ q ∈ l, (dedup_run cfg dg st l).hash s = mkEntry cfg dg q.1 q.2 := by
  induction l generalizing st with
  | nil =>
    obtain ⟨m, hm1, hm2, _⟩ := hcov
    simp only [List.length_nil] at hm2
    omega
  | cons p rest ih =>
    have hw : 1 ≤ cfg.dup_window := by omega
    have hins_cur : (dd_insert cfg dg st p.1 p.2).cur = (st.cur + 1) % cfg.dup_window := by
      rw [dd_insert_cur]
      exact advance_mod _ _ hc
    have hcur2 : (dd_insert cfg dg st p.1 p.2).cur < cfg.dup_window := by
      rw [hins_cur]
      exact Nat.mod_lt _ (by omega)
    by_cases hcov2 : ∃ m, 1 ≤ m ∧ m ≤ rest.length ∧
        ((dd_insert cfg dg st p.1 p.2).cur + m) % cfg.dup_window = s
    · obtain ⟨q, hq, he⟩ := ih _ hcur2 hcov2
      exact ⟨q, List.mem_cons_of_mem _ hq, by rw [dedup_run_cons]; exact he⟩
    · obtain ⟨m, hm1, hm2, hm3⟩ := hcov
      have hm : m = 1 := by
        by_contra hne1
        apply hcov2
        refine ⟨m - 1, by omega, by simp only [List.length_cons] at hm2; omega, ?_⟩
        rw [hins_cur, Nat.mod_add_mod, show st.cur + 1 + (m - 1) = st.cur + m by omega]
        exact hm3
      subst hm
      have hs : s = advance cfg.dup_window st.cur := by
        rw [advance_mod _ _ hc]
        exact hm3.symm
      have huntouched :
          (dedup_run cfg dg (dd_insert cfg dg st p.1 p.2) rest).hash s =
            (dd_insert cfg dg st p.1 p.2).hash s := by
        apply dedup_run_hash_untouched cfg dg rest _ s hcur2
        intro m2 hm21 hm22 heq
        exact hcov2 ⟨m2, hm21, hm22, heq⟩
      refine ⟨p, List.mem_cons_self _ _, ?_⟩
      rw [dedup_run_cons, huntouched, hs]
      exact dd_insert_hash_self cfg dg st p.1 p.2

theorem is_duplicate_true_of_match (cfg : dedup_cfg) (dg : List Nat → List Nat)
    (st : dd_state) (fd : List Nat) (len : Nat) (i : Nat)
    (hi : i < cfg.dup_window) (hne : i ≠ advance cfg.dup_window st.cur)
    (hmatch : st.hash i = mkEntry cfg dg fd len) :
    (is_duplicate cfg dg st fd len).1 = true := by
  simp only [is_duplicate]
  rw [List.any_eq_true]
  refine ⟨i, List.mem_range.mpr hi, ?_⟩
  simp [dd_insert, hne, hmatch]

theorem is_duplicate_false_of_nomatch (cfg : dedup_cfg) (dg : List Nat → List Nat)
    (st : dd_state) (fd : List Nat) (len : Nat)
    (h : ∀ i, i < cfg.dup_window → i ≠ advance cfg.dup_window st.cur →
        st.hash i ≠ mkEntry cfg dg fd len) :
    (is_duplicate cfg dg st fd len).1 = false := by
  simp only [is_duplicate]
  rw [List.any_eq_false]
  intro i hmem
  rw [List.mem_range] at hmem
  by_cases hne : i = advance cfg.dup_window st.cur
  · simp [dd_insert, hne]
  · have hm := h i hmem hne
    have hcur : (dd_insert cfg dg st fd len).hash (dd_insert cfg dg st fd len).cur =
        mkEntry cfg dg fd len := by
      rw [dd_insert_cur]
      exact dd_insert_hash_self cfg dg st fd len
    have hother : (dd_insert cfg dg st fd len).hash i = st.hash i :=
      dd_insert_hash_other cfg dg st fd len i hne
    simp only [hcur, hother, Bool.and_eq_true, decide_eq_true_eq, beq_iff_eq, not_and]
    rintro ⟨-, hlen⟩ hdig
    apply hm
    cases hhe : st.hash i with
    | mk a b =>
      rw [hhe] at hlen hdig
      rw [show mkEntry cfg dg fd len =
        ⟨(mkEntry cfg dg fd len).len, (mkEntry cfg dg fd len).digest⟩ from rfl]
      rw [← hlen, ← hdig]


/-- Counterexample to C3 as stated: with window W = 2, a packet re-inserted
exactly W insertions after its first occurrence (one non-matching packet in
between) is NOT reported as duplicate, because the new insertion overwrites
the slot holding the first occurrence; the ring effectively remembers only
the previous W - 1 insertions. -/
theorem dedup_window_boundary_cex :
    mkEntry ⟨0, false, 2⟩ (fun _ => [0]) [5, 5, 5, 5, 5, 5, 5] 7 ≠
      mkEntry ⟨0, false, 2⟩ (fun _ => [0]) [1, 2, 3, 4] 4 ∧
    (is_duplicate ⟨0, false, 2⟩ (fun _ => [0])
        (dedup_run ⟨0, false, 2⟩ (fun _ => [0])
          (is_duplicate ⟨0, false, 2⟩ (fun _ => [0]) dd_init [1, 2, 3, 4] 4).2
          [([5, 5, 5, 5, 5, 5, 5], 7)])
        [1, 2, 3, 4] 4).1 = false := by
  decide

/-- C3 amended: for the content-window deduplicator with ring capacity W,
if a packet with the same post-skip-prefix bytes and captured length was
inserted among the previous W - 1 insertions (at most W - 2 packets in
between), `is_duplicate` reports the second occurrence as duplicate; and
if W pairwise non-matching packets (none sharing the pair's fingerprint)
are inserted between two identical packets, `is_duplicate` reports the
later identical packet as not duplicate (the earlier entry has been
evicted). -/
theorem dedup_window_detects_and_evicts (cfg : dedup_cfg) (dg : List Nat → List Nat)
    (st0 : dd_state) (fd : List Nat) (len : Nat)
    (hcur : st0.cur < cfg.dup_window) :
    (∀ l : List (List Nat × Nat), l.length + 2 ≤ cfg.dup_window →
        (is_duplicate cfg dg
            (dedup_run cfg dg (is_duplicate cfg dg st0 fd len).2 l) fd len).1 = true) ∧
    (∀ l : List (List Nat × Nat),
        (∀ q ∈ l, mkEntry cfg dg q.1 q.2 ≠ mkEntry cfg dg fd len) →
        l.length = cfg.dup_window →
        (is_duplicate cfg dg
            (dedup_run cfg dg (is_duplicate cfg dg st0 fd len).2 l) fd len).1 = false) := by
  have hw : 1 ≤ cfg.dup_window := by omega
  have hs1lt : advance cfg.dup_window st0.cur < cfg.dup_window := advance_lt _ _ hw
  constructor
  · intro l hl
    rw [is_duplicate_state]
    have hins_lt : (dd_insert cfg dg st0 fd len).cur < cfg.dup_window := by
      rw [dd_insert_cur]
      exact hs1lt
    have hcur2 : (dedup_run cfg dg (dd_insert cfg dg st0 fd len) l).cur =
        (advance cfg.dup_window st0.cur + l.length) % cfg.dup_window := by
      rw [dedup_run_cur cfg dg l _ hins_lt, dd_insert_cur]
    have hcur2lt : (dedup_run cfg dg (dd_insert cfg dg st0 fd len) l).cur <
        cfg.dup_window := by
      rw [hcur2]
      exact Nat.mod_lt _ (by omega)
    have hcond : ∀ m, 1 ≤ m → m ≤ l.length →
        ((dd_insert cfg dg st0 fd len).cur + m) % cfg.dup_window ≠
          advance cfg.dup_window st0.cur := by
      intro m hm1 hm2
      rw [dd_insert_cur]
      have hne := mod_shift_ne (advance cfg.dup_window st0.cur) m cfg.dup_window hm1
        (by omega)
      rw [Nat.mod_eq_of_lt hs1lt] at hne
      exact hne
    have hhash2 : (dedup_run cfg dg (dd_insert cfg dg st0 fd len) l).hash
        (advance cfg.dup_window st0.cur) = mkEntry cfg dg fd len := by
      rw [dedup_run_hash_untouched cfg dg l _ _ hins_lt hcond]
      exact dd_insert_hash_self cfg dg st0 fd len
    have hadv : advance cfg.dup_window (dedup_run cfg dg (dd_insert cfg dg st0 fd len) l).cur =
        (advance cfg.dup_window st0.cur + (l.length + 1)) % cfg.dup_window := by
      rw [advance_mod _ _ hcur2lt, hcur2, Nat.mod_add_mod,
        show advance cfg.dup_window st0.cur + l.length + 1 =
          advance cfg.dup_window st0.cur + (l.length + 1) by omega]
    have hne : advance cfg.dup_window st0.cur ≠
        advance cfg.dup_window (dedup_run cfg dg (dd_insert cfg dg st0 fd len) l).cur := by
      rw [hadv]
      intro h
      have hne2 := mod_shift_ne (advance cfg.dup_window st0.cur) (l.length + 1)
        cfg.dup_window (by omega) (by omega)
      rw [Nat.mod_eq_of_lt hs1lt] at hne2
      exact hne2 h.symm
    exact is_duplicate_true_of_match cfg dg _ fd len (advance cfg.dup_window st0.cur)
      hs1lt hne hhash2
  · intro l hnomatch hlen
    rw [is_duplicate_state]
    have hins_lt : (dd_insert cfg dg st0 fd len).cur < cfg.dup_window := by
      rw [dd_insert_cur]
      exact hs1lt
    apply is_duplicate_false_of_nomatch
    intro i hi _
    have hcov : ∃ m, 1 ≤ m ∧ m ≤ l.length ∧
        ((dd_insert cfg dg st0 fd len).cur + m) % cfg.dup_window = i := by
      rw [dd_insert_cur]
      by_cases hlt : advance cfg.dup_window st0.cur < i
      · refine ⟨i - advance cfg.dup_window st0.cur, by omega, by omega, ?_⟩
        rw [show advance cfg.dup_window st0.cur + (i - advance cfg.dup_window st0.cur) = i
          by omega]
        exact Nat.mod_eq_of_lt hi
      · refine ⟨i + cfg.dup_window - advance cfg.dup_window st0.cur, by omega, by omega, ?_⟩
        rw [show advance cfg.dup_window st0.cur +
            (i + cfg.dup_window - advance cfg.dup_window st0.cur) = i + cfg.dup_window
          by omega]
        rw [Nat.add_mod_right]
        exact Nat.mod_eq_of_lt hi
    obtain ⟨q, hq, he⟩ := dedup_run_hash_covered cfg dg l _ i hins_lt hcov
    rw [he]
    exact hnomatch q hq

/-- Witness for the amended C3: with window 3 and one distinct packet in
between, the re-inserted packet is reported as duplicate. -/
theorem dedup_window_detects_and_evicts_witness :
    (is_duplicate ⟨0, false, 3⟩ (fun l => l)
        (dedup_run ⟨0, false, 3⟩ (fun l => l)
          (is_duplicate ⟨0, false, 3⟩ (fun l => l) dd_init [1, 2] 2).2
          [([9, 9, 9], 3)])
        [1, 2] 2).1 = true :=
  (dedup_window_detects_and_evicts ⟨0, false, 3⟩ (fun l => l) dd_init [1, 2] 2
      (by decide)).1 [([9, 9, 9], 3)] (by decide)

/-- Ring entry of the time-window deduplicator: captured length, digest and
the packet's timestamp (`fd_hash_t` with its `frame_time` field). -/
structure rel_entry where
  len : Nat
  digest : List Nat
  frame_time : nstime
deriving DecidableEq

/-- State of the time-window deduplicator: the `fd_hash` ring and the
cursor. -/
structure rel_state where
  hash : Nat → rel_entry
  cur : Nat

/-- Zero-initialised time-window deduplicator state. -/
def rel_init : rel_state := ⟨fun _ => ⟨0, List.replicate 16 0, ⟨0, 0⟩⟩, 0⟩

/-- Entry stored by `is_duplicate_rel_time`: captured length, digest of the
post-offset bytes, and the packet's timestamp. -/
def rel_mkEntry (cfg : dedup_cfg) (dg : List Nat → List Nat) (fd : List Nat)
    (len : Nat) (current : nstime) : rel_entry :=
  ⟨len, dg (rel_dedup_digest_input cfg fd len), current⟩

/-- Storage part of `is_duplicate_rel_time`: advance the cursor and
overwrite the slot with the new packet's entry and timestamp. -/
def rel_insert (cfg : dedup_cfg) (dg : List Nat → List Nat) (st : rel_state)
    (fd : List Nat) (len : Nat) (current : nstime) : rel_state :=
  let cur := advance cfg.dup_window st.cur
  ⟨fun i => if i = cur then rel_mkEntry cfg dg fd len current else st.hash i, cur⟩

/-- Backward scan of `is_duplicate_rel_time` (editcap.c lines 674-734):
walk from the slot before the cursor backwards with wraparound; stop (no
duplicate) on returning to the cursor slot, on a never-written entry, or
when the candidate is older than the time window; skip candidates newer
than the current packet (negative delta) and keep walking; report a
duplicate on matching length and digest.  The fuel merely bounds the walk,
which the source terminates by returning to the cursor slot. -/
def rel_scan (w : Nat) (h : Nat → rel_entry) (cur : Nat) (entry : rel_entry)
    (current win : nstime) : Nat → Int → Bool
  | 0, _ => false
  | fuel + 1, i =>
    let i2 : Int := if i < 0 then (w : Int) - 1 else i
    if i2 = (cur : Int) then false
    else if nstime_is_unset (h i2.toNat).frame_time then false
    else if nstime_delta_ns current (h i2.toNat).frame_time < 0 then
      rel_scan w h cur entry current win fuel (i2 - 1)
    else if nstime_delta_ns current (h i2.toNat).frame_time > win.toNs then false
    else if (h i2.toNat).len == entry.len && (h i2.toNat).digest == entry.digest then
      true
    else rel_scan w h cur entry current win fuel (i2 - 1)

/-- The time-window `is_duplicate_rel_time` of editcap.c (lines 626-737):
store the new entry (with timestamp) at the advanced cursor, then scan
backwards from the slot before it. -/
def is_duplicate_rel_time (cfg : dedup_cfg) (dg : List Nat → List Nat)
    (st : rel_state) (fd : List Nat) (len : Nat) (current win : nstime) :
    Bool × rel_state :=
  let st1 := rel_insert cfg dg st fd len current
  (rel_scan cfg.dup_window st1.hash st1.cur (st1.hash st1.cur) current win
      (cfg.dup_window + 1) ((st1.cur : Int) - 1),
    st1)

theorem rel_insert_cur (cfg : dedup_cfg) (dg : List Nat → List Nat) (st : rel_state)
    (fd : List Nat) (len : Nat) (t : nstime) :
    (rel_insert cfg dg st fd len t).cur = advance cfg.dup_window st.cur := rfl

theorem rel_insert_hash_self (cfg : dedup_cfg) (dg : List Nat → List Nat)
    (st : rel_state) (fd : List Nat) (len : Nat) (t : nstime) :
    (rel_insert cfg dg st fd len t).hash (advance cfg.dup_window st.cur) =
      rel_mkEntry cfg dg fd len t := by
  simp [rel_insert]

theorem rel_insert_hash_other (cfg : dedup_cfg) (dg : List Nat → List Nat)
    (st : rel_state) (fd : List Nat) (len : Nat) (t : nstime) (s : Nat)
    (hne : s ≠ advance cfg.dup_window st.cur) :
    (rel_insert cfg dg st fd len t).hash s = st.hash s := by
  simp [rel_insert, hne]

theorem advance_pred_idx (w s : Nat) (hs : s < w) :
    (if ((advance w s : Int) - 1) < 0 then (w : Int) - 1 else (advance w s : Int) - 1) =
      (s : Int) := by
  unfold advance
  split_ifs <;> omega

theorem rel_first_candidate (cfg : dedup_cfg) (dg : List Nat → List Nat)
    (st0 : rel_state) (fd : List Nat) (len : Nat) (t1 t win : nstime)
    (hw : 2 ≤ cfg.dup_window) (hcur : st0.cur < cfg.dup_window)
    (ht1a : 0 ≤ t1.nsecs) (ht1b : t1.nsecs < ONE_BILLION)
    (ht : 0 ≤ t.toNs - t1.toNs) :
    (is_duplicate_rel_time cfg dg (rel_insert cfg dg st0 fd len t1) fd len t win).1 =
      (if t.toNs - t1.toNs > win.toNs then false else true) := by
  have hw1 : 1 ≤ cfg.dup_window := by omega
  have hs1 : advance cfg.dup_window st0.cur < cfg.dup_window := advance_lt _ _ hw1
  have hne : advance cfg.dup_window (advance cfg.dup_window st0.cur) ≠
      advance cfg.dup_window st0.cur := by
    rw [advance_mod _ _ hs1]
    intro h
    have h2 := mod_shift_ne (advance cfg.dup_window st0.cur) 1 cfg.dup_window
      (le_refl 1) (by omega)
    rw [Nat.mod_eq_of_lt hs1] at h2
    exact h2 h
  have ht1b2 : t1.nsecs < 1000000000 := ht1b
  have hunset : nstime_is_unset t1 = false := by
    have hne47 : t1.nsecs ≠ 2147483647 := by omega
    simp [nstime_is_unset, hne47]
  simp only [is_duplicate_rel_time, rel_scan, rel_insert_cur]
  rw [advance_pred_idx cfg.dup_window (advance cfg.dup_window st0.cur) hs1]
  rw [if_neg (by
    simp only [Nat.cast_inj]
    exact fun h => hne h.symm)]
  simp only [Int.toNat_natCast]
  have hother := rel_insert_hash_other cfg dg (rel_insert cfg dg st0 fd len t1) fd len t
    (advance cfg.dup_window st0.cur) (by rw [rel_insert_cur]; exact Ne.symm hne)
  simp only [hother, rel_insert_hash_self]
  simp only [rel_mkEntry, nstime_delta_ns, hunset, Bool.false_eq_true, if_false]
  rw [if_neg (by omega)]
  have hself2 : (rel_insert cfg dg (rel_insert cfg dg st0 fd len t1) fd len t).hash
      (advance cfg.dup_window (advance cfg.dup_window st0.cur)) =
      rel_mkEntry cfg dg fd len t := by
    have hs := rel_insert_hash_self cfg dg (rel_insert cfg dg st0 fd len t1) fd len t
    rw [rel_insert_cur] at hs
    exact hs
  by_cases hgt : t.toNs - t1.toNs > win.toNs
  · rw [if_pos hgt, if_pos hgt]
  · rw [if_neg hgt, if_neg hgt]
    simp [hself2, rel_mkEntry]

/-- C4: for the time-window deduplicator (window at least 2), inserting a
packet at time t1 and then the identical-content, identical-length packet
at a time exactly the configured window later reports the second occurrence
as duplicate, while inserting it one nanosecond beyond the window reports
it as not duplicate, per the non-decreasing timestamp assumption. -/
theorem rel_time_dedup_boundary (cfg : dedup_cfg) (dg : List Nat → List Nat)
    (st0 : rel_state) (fd : List Nat) (len : Nat) (t1 t2 t3 win : nstime)
    (hw : 2 ≤ cfg.dup_window) (hcur : st0.cur < cfg.dup_window)
    (ht1a : 0 ≤ t1.nsecs) (ht1b : t1.nsecs < ONE_BILLION)
    (hwin : 0 ≤ win.toNs)
    (ha : t2.toNs = t1.toNs + win.toNs)
    (hb : t3.toNs = t1.toNs + win.toNs + 1) :
    (is_duplicate_rel_time cfg dg (is_duplicate_rel_time cfg dg st0 fd len t1 win).2
        fd len t2 win).1 = true ∧
    (is_duplicate_rel_time cfg dg (is_duplicate_rel_time cfg dg st0 fd len t1 win).2
        fd len t3 win).1 = false := by
  have hstate : (is_duplicate_rel_time cfg dg st0 fd len t1 win).2 =
      rel_insert cfg dg st0 fd len t1 := rfl
  rw [hstate]
  constructor
  · rw [rel_first_candidate cfg dg st0 fd len t1 t2 win hw hcur ht1a ht1b (by omega)]
    rw [if_neg (by omega)]
  · rw [rel_first_candidate cfg dg st0 fd len t1 t3 win hw hcur ht1a ht1b (by omega)]
    rw [if_pos (by omega)]

/-- Witness for C4 at a concrete window of 1.5e9 ns. -/
theorem rel_time_dedup_boundary_witness :
    (is_duplicate_rel_time ⟨0, false, 2⟩ (fun l => l)
        (is_duplicate_rel_time ⟨0, false, 2⟩ (fun l => l) rel_init [1, 2, 3] 3
          ⟨10, 0⟩ ⟨1, 500000000⟩).2
        [1, 2, 3] 3 ⟨11, 500000000⟩ ⟨1, 500000000⟩).1 = true ∧
    (is_duplicate_rel_time ⟨0, false, 2⟩ (fun l => l)
        (is_duplicate_rel_time ⟨0, false, 2⟩ (fun l => l) rel_init [1, 2, 3] 3
          ⟨10, 0⟩ ⟨1, 500000000⟩).2
        [1, 2, 3] 3 ⟨11, 500000001⟩ ⟨1, 500000000⟩).1 = false :=
  rel_time_dedup_boundary ⟨0, false, 2⟩ (fun l => l) rel_init [1, 2, 3] 3
    ⟨10, 0⟩ ⟨11, 500000000⟩ ⟨11, 500000001⟩ ⟨1, 500000000⟩
    (by decide) (by decide) (by decide) (by decide) (by decide) (by decide) (by decide)

end Editcap
